import Mathlib

/-!
Verification model of the image-scraper multitool
(`image_scraper_multitool.py` and `image_scraper_gui.py`).

The Python source is shallowly embedded: pure helpers become Lean
functions; the stateful download pipeline becomes explicit state passing
over a `RunState`; network, browser and codec interactions become oracle
functions supplied as parameters; the filesystem of the destination
directory becomes a list of file names; the dedup-ledger file becomes a
list of recorded lines.  Machine floats in the resize computation are
modelled with exact rational arithmetic realised as natural-number
division (the quantities involved are non-negative, and Python `int()`
truncation on non-negative values is floor).  Strings are modelled as
their code-point sequences; the Python string helpers used by the code
(`str.lower`, `str.strip`, slicing) are modelled on ASCII data, which is
the domain the scraper operates on.
-/

namespace ImageScraper

/-! ### Character-list utilities (models of Python string primitives) -/

/-- First index of a character satisfying `p`, if any. -/
def firstIdxP (p : Char → Bool) : List Char → Option Nat
  | [] => none
  | c :: cs => if p c then some 0 else (firstIdxP p cs).map (· + 1)

/-- Last index of the character `c`, if any (model of `str.rfind`). -/
def lastIdx (c : Char) : List Char → Option Nat
  | [] => none
  | x :: xs =>
    match lastIdx c xs with
    | some i => some (i + 1)
    | none => if x = c then some 0 else none

/-- Split at the first occurrence of `sep` (model of `str.split(sep, 1)`
when `sep` occurs; `none` when it does not). -/
def breakOnL (sep : List Char) : List Char → Option (List Char × List Char)
  | [] => if sep.isEmpty then some ([], []) else none
  | c :: cs =>
    if sep.isPrefixOf (c :: cs) then some ([], (c :: cs).drop sep.length)
    else
      match breakOnL sep cs with
      | some (before, after) => some (c :: before, after)
      | none => none

/-- Model of Python `needle in haystack`. -/
def containsS (hay needle : String) : Bool :=
  (breakOnL needle.data hay.data).isSome

/-- Model of Python `hay.split(sep, 1)` restricted to the case the code
uses (the separator is present; otherwise the call site raises). -/
def breakOnS (s sep : String) : Option (String × String) :=
  (breakOnL sep.data s.data).map (fun p => (⟨p.1⟩, ⟨p.2⟩))

/-- One data character of the standard base64 alphabet. -/
def isB64Data (c : Char) : Bool := c.isAlphanum || c = '+' || c = '/'

/-- Acceptance state machine of `binascii.a2b_base64` in the non-strict
mode used by `base64.b64decode`: characters outside the alphabet are
discarded; a `=` ends the input successfully once at least two data
characters sit in the current quad and data plus pads fill it; any
other run of pads is skipped; at the end of input the data characters
must fill whole quads, otherwise the decoder raises (`Incorrect
padding` and its variants). -/
def b64decodeOk (quadPos pads : Nat) : List Char → Bool
  | [] => quadPos == 0
  | c :: cs =>
    if c = '=' then
      if 2 ≤ quadPos ∧ 4 ≤ quadPos + (pads + 1) then true
      else b64decodeOk quadPos (pads + 1) cs
    else if isB64Data c then b64decodeOk ((quadPos + 1) % 4) 0 cs
    else b64decodeOk quadPos pads cs

/-- Model of whether `base64.b64decode(payload)` succeeds (the decoded
bytes themselves never influence the pipeline bookkeeping). -/
def b64decodable (payload : String) : Bool := b64decodeOk 0 0 payload.data

/-- Model of Python string slicing `s[:n]` (code points). -/
def takeChars (s : String) (n : Nat) : String := ⟨s.data.take n⟩

/-- Model of Python `str.lower` on ASCII data. -/
def lowerS (s : String) : String := ⟨s.data.map Char.toLower⟩

/-- Model of Python `s.startswith(p)`. -/
def startsWithS (s p : String) : Bool := p.data.isPrefixOf s.data

/-- Model of Python `s.endswith(p)`. -/
def endsWithS (s p : String) : Bool := p.data.isSuffixOf s.data

/-- ASCII whitespace as stripped by Python `str.strip()`. -/
def pyIsSpace (c : Char) : Bool :=
  c = ' ' || c = '\t' || c = '\n' || c = '\r' || c = '\x0b' || c = '\x0c'

/-- Model of Python `str.strip()` (ASCII whitespace). -/
def stripS (s : String) : String :=
  ⟨((s.data.dropWhile pyIsSpace).reverse.dropWhile pyIsSpace).reverse⟩

/-! ### Model of `urllib.parse.urlsplit` (the fields the scraper reads) -/

/-- Characters allowed in a URL scheme (`urllib.parse.scheme_chars`). -/
def isSchemeChar (c : Char) : Bool :=
  c.isAlpha || c.isDigit || c = '+' || c = '-' || c = '.'

/-- Split a leading `scheme:` if present, as `urlsplit` does: there must
be a colon at a positive index, the first character must be a letter and
every character before the colon a scheme character. -/
def splitScheme (cs : List Char) : List Char × List Char :=
  match firstIdxP (· == ':') cs with
  | none => ([], cs)
  | some i =>
    if decide (0 < i) && (cs.take i).all isSchemeChar &&
        (match cs.head? with | some c => c.isAlpha | none => false) then
      (cs.take i, cs.drop (i + 1))
    else ([], cs)

/-- Split a leading `//netloc` if present: the netloc extends to the next
`/`, `?` or `#`. -/
def splitNetloc (cs : List Char) : List Char × List Char :=
  match cs with
  | '/' :: '/' :: rest =>
    match firstIdxP (fun c => c == '/' || c == '?' || c == '#') rest with
    | none => (rest, [])
    | some i => (rest.take i, rest.drop i)
  | _ => ([], cs)

/-- Cut at the first occurrence of `c`: `(before, after)`, the delimiter
dropped; `(cs, [])` when absent. -/
def cutAtChar (c : Char) (cs : List Char) : List Char × List Char :=
  match firstIdxP (· == c) cs with
  | none => (cs, [])
  | some i => (cs.take i, cs.drop (i + 1))

structure UrlSplitResult where
  scheme : String
  netloc : String
  path : String
  query : String
  fragment : String
deriving DecidableEq

/-- Model of `urllib.parse.urlsplit`: scheme, then `//netloc`, then the
fragment is cut at the first `#`, then the query at the first `?`. -/
def urlsplit (s : String) : UrlSplitResult :=
  let p1 := splitScheme s.data
  let p2 := splitNetloc p1.2
  let p3 := cutAtChar '#' p2.2
  let p4 := cutAtChar '?' p3.1
  ⟨⟨p1.1⟩, ⟨p2.1⟩, ⟨p4.1⟩, ⟨p4.2⟩, ⟨p3.2⟩⟩

def urlsplitPath (s : String) : String := (urlsplit s).path

def urlsplitNetloc (s : String) : String := (urlsplit s).netloc

/-! ### Model of `os.path.splitext` / `pathlib` stem and suffix (POSIX) -/

/-- Model of `posixpath.splitext`: the extension starts at the last dot,
provided it lies after the last separator and the name part before it is
not all dots. -/
def splitextList (cs : List Char) : List Char × List Char :=
  match lastIdx '.' cs with
  | none => (cs, [])
  | some d =>
    let start := ((lastIdx '/' cs).map (· + 1)).getD 0
    if start ≤ d ∧ ((cs.drop start).take (d - start)).any (fun c => !(c == '.')) then
      (cs.take d, cs.drop d)
    else (cs, [])

/-- Model of `Path(...).stem` for the bare file names the pipeline
builds (equivalently the root part of `os.path.splitext`). -/
def pyStem (s : String) : String := ⟨(splitextList s.data).1⟩

/-- Model of `Path(...).suffix` / the extension part of
`os.path.splitext`. -/
def pySuffix (s : String) : String := ⟨(splitextList s.data).2⟩

/-- Model of `os.path.basename` (POSIX). -/
def basenameOf (s : String) : String :=
  match lastIdx '/' s.data with
  | none => s
  | some i => ⟨s.data.drop (i + 1)⟩

/-! ### `sanitize_filename` and small formatting helpers -/

/-- One character is kept by the allow-class `[\w.\-]` of
`sanitize_filename` (ASCII reading of `\w`). -/
def keptChar (c : Char) : Bool := c.isAlphanum || c = '_' || c = '.' || c = '-'

/-- Model of `re.sub(r"[^\w.\-]+", "_", s)`: every maximal run of
disallowed characters collapses to a single underscore.  The flag records
whether a disallowed run is in progress. -/
def collapseRuns : Bool → List Char → List Char
  | _, [] => []
  | inRun, c :: cs =>
    if keptChar c then c :: collapseRuns false cs
    else if inRun then collapseRuns true cs
    else '_' :: collapseRuns true cs

/-- Model of `sanitize_filename` (source lines 69-74): strip, collapse
disallowed runs to `_`, fall back to `"image"` when empty, cap at 255. -/
def sanitize_filename (candidate : String) : String :=
  let collapsed := collapseRuns false (stripS candidate).data
  if collapsed.isEmpty then "image" else ⟨collapsed.take 255⟩

/-- Model of the f-string `f"{index:04d}"`. -/
def pad4 (n : Nat) : String :=
  let r := Nat.repr n
  ⟨List.replicate (4 - r.length) '0'⟩ ++ r

/-! ### `best_extension` (source lines 91-113) -/

/-- The allow-list `ALLOWED_IMAGE_EXTENSIONS` (source lines 57-66). -/
def ALLOWED_IMAGE_EXTENSIONS : List String :=
  [".jpg", ".jpeg", ".png", ".gif", ".bmp", ".webp", ".tiff", ".tif"]

/-- Model of `mimetypes.guess_extension` restricted to the table entries
relevant to the scraper (CPython's default map; the lookup lowercases its
argument). -/
def guess_extension (t : String) : Option String :=
  let t := lowerS t
  if t = "image/jpeg" then some ".jpg"
  else if t = "image/png" then some ".png"
  else if t = "image/gif" then some ".gif"
  else if t = "image/webp" then some ".webp"
  else if t = "image/bmp" then some ".bmp"
  else if t = "image/tiff" then some ".tiff"
  else if t = "image/svg+xml" then some ".svg"
  else if t = "image/x-icon" then some ".ico"
  else if t = "text/html" then some ".html"
  else if t = "text/plain" then some ".txt"
  else none

/-- The candidate extension harvested from one of the first two sources:
`os.path.splitext(urlsplit(source).path)`, lowercased, kept only when
non-empty (source lines 96-101). -/
def extCandidate (source : String) : List String :=
  if source = "" then []
  else
    let e := pySuffix (urlsplitPath source)
    if e = "" then [] else [lowerS e]

/-- The candidate extension sniffed from the content type (source lines
102-105): the part before the first `;`, stripped, looked up in the MIME
table, lowercased. -/
def ctCandidate (contentType : String) : List String :=
  if contentType = "" then []
  else
    let head := match breakOnS contentType ";" with
      | some p => p.1
      | none => contentType
    match guess_extension (stripS head) with
    | some g => [lowerS g]
    | none => []

/-- The selection loop of `best_extension` (source lines 107-113): first
candidate that, after normalizing `.jpe` to `.jpg`, is allow-listed;
default `.jpg`. -/
def pickExt : List String → String
  | [] => ".jpg"
  | e :: es =>
    let e := if e = ".jpe" then ".jpg" else e
    if e ∈ ALLOWED_IMAGE_EXTENSIONS then e else pickExt es

/-- Model of `best_extension` (source lines 91-113). -/
def best_extension (originalName fallbackUrl contentType : String) : String :=
  pickExt (extCandidate originalName ++ extCandidate fallbackUrl ++ ctCandidate contentType)

/-- The specification-side restatement of the extension-inference
contract, following the spec's words: the first allow-listed hit in the
order original-filename extension, then URL path extension, then
content-type sniff, defaulting to `.jpg`, with `.jpe` normalized to
`.jpg`. -/
def specFirstAllowed : List String → Option String
  | [] => none
  | e :: es =>
    let e := if e = ".jpe" then ".jpg" else e
    if e ∈ ALLOWED_IMAGE_EXTENSIONS then some e else specFirstAllowed es

/-- Specification-side extension choice (see `specFirstAllowed`). -/
def best_extension_spec (originalName fallbackUrl contentType : String) : String :=
  match specFirstAllowed (extCandidate originalName) with
  | some e => e
  | none =>
    match specFirstAllowed (extCandidate fallbackUrl) with
    | some e => e
    | none =>
      match specFirstAllowed (ctCandidate contentType) with
      | some e => e
      | none => ".jpg"

/-! ### `compress_image` resize computation (source lines 180-197)

Only the dimension computation is modelled: the quality knob and the
re-encode do not change the computed size.  Python computes
`int(new_height * ratio)` with a float `ratio = max/current`; the model
uses the exact value `new_height * max / current` with floor, which is
natural-number division on the non-negative quantities involved. -/

/-- The width step: if a positive `maxWidth` is exceeded, clamp the width
and rescale the height proportionally. -/
def resizeWidthStep (w h maxWidth : Nat) : Nat × Nat :=
  if 0 < maxWidth ∧ maxWidth < w then (maxWidth, h * maxWidth / w) else (w, h)

/-- The height step: if a positive `maxHeight` is still exceeded, clamp
the height and rescale the width proportionally. -/
def resizeHeightStep (w h maxHeight : Nat) : Nat × Nat :=
  if 0 < maxHeight ∧ maxHeight < h then (w * maxHeight / h, maxHeight) else (w, h)

/-- Model of the resize computation of `compress_image`: the width step
runs first, then the height step on its result. -/
def compress_image (w h maxWidth maxHeight : Nat) : Nat × Nat :=
  let p := resizeWidthStep w h maxWidth
  resizeHeightStep p.1 p.2 maxHeight

/-! ### The no-overwrite collision loop (source lines 378-383, 619-622,
1298-1301, 1359-1362)

`while target_path.exists(): target_path = dest / f"{target_path.stem}_{i}{target_path.suffix}"`.
The loop terminates exactly when a free name is reached; the model runs
it with fuel `existing.length + 1`, which the freshness theorem shows is
always enough (each candidate is strictly longer than the previous one,
so the candidates are pairwise distinct and cannot all be taken). -/

/-- One step of the collision loop: the next candidate name built from
the current one. -/
def nextCand (t : String) (i : Nat) : String :=
  pyStem t ++ "_" ++ Nat.repr i ++ pySuffix t

/-- The fueled collision loop. -/
def freshAux (ex : List String) : Nat → String → Nat → String
  | 0, t, _ => t
  | fuel + 1, t, i => if t ∈ ex then freshAux ex fuel (nextCand t i) (i + 1) else t

/-- The name actually written for `filename` given the existing files
`ex` of the destination directory. -/
def freshName (ex : List String) (filename : String) : String :=
  freshAux ex (ex.length + 1) filename 1

/-- The `j`-th candidate examined by the collision loop when it starts
from name `t` and counter `i`. -/
def candAt (t : String) (i : Nat) : Nat → String
  | 0 => t
  | j + 1 => candAt (nextCand t i) (i + 1) j

/-! ### `maybe_convert_webp_to_jpg` (source lines 116-155)

The codec is an oracle: `codecOk` says whether Pillow re-encodes this
file successfully.  On failure the function raises before the target is
saved and before the source is unlinked, so the filesystem is returned
unchanged; on success the target is written and then the source
unlinked. -/

/-- The `c`-th candidate of the conversion-target loop (source lines
132-136): `stem.jpg`, then `stem_1.jpg`, `stem_2.jpg`, ... (the stem of
the original path each time). -/
def convCandidate (path : String) : Nat → String
  | 0 => pyStem path ++ ".jpg"
  | c + 1 => pyStem path ++ "_" ++ Nat.repr (c + 1) ++ ".jpg"

/-- Fueled form of the conversion-target loop. -/
def convAux (fs : List String) (path : String) : Nat → Nat → String
  | 0, c => convCandidate path c
  | fuel + 1, c =>
    if convCandidate path c ∈ fs then convAux fs path fuel (c + 1)
    else convCandidate path c

/-- The target chosen for the converted JPEG. -/
def convTargetName (fs : List String) (path : String) : String :=
  convAux fs path (fs.length + 1) 0

/-- Model of `maybe_convert_webp_to_jpg`: returns the filesystem after
the call and either the resulting path or the raised error message (the
wrapped Pillow exception text is elided). -/
def maybe_convert_webp_to_jpg (codecOk : Bool) (fs : List String) (path : String) :
    List String × Except String String :=
  if lowerS (pySuffix path) ≠ ".webp" then (fs, .ok path)
  else
    let target := convTargetName fs path
    if codecOk then ((fs.erase path) ++ [target], .ok target)
    else (fs, .error ("Failed to convert " ++ path ++ " from .webp to .jpg"))

/-! ### Download pipeline state

`fs` is the set of file names present in the destination directory (as a
list), `ledger` the lines of `_downloaded_urls.txt`, `seen` the in-memory
`seen_urls` set (loaded from the ledger at run start, grown during the
run).  File writes themselves are modelled as succeeding; network and
codec failures come from the oracle environment. -/

structure RunState where
  fs : List String
  ledger : List String
  seen : List String
  saved : Nat
  skipped : Nat
  errors : List String
deriving DecidableEq

/-- The initial state of one run against a directory whose files are
`fs` and whose ledger file holds `ledger` (the manifest is read into
`seen_urls` at start, source lines 326-332). -/
def initRunState (fs ledger : List String) : RunState :=
  { fs := fs, ledger := ledger, seen := ledger, saved := 0, skipped := 0, errors := [] }

/-- The oracle environment: `fetch url` is the streaming GET (returning
the `Content-Type` header on success, the exception text on failure);
`webpConvertOk path` says whether the Pillow re-encode of `path`
succeeds. -/
structure FetchEnv where
  fetch : String → Except String String
  webpConvertOk : String → Bool

/-- Run the conversion inside the callers that swallow every conversion
exception (source lines 573-577 and 1309-1312, 1369-1372): the
filesystem effect is kept, a failure is ignored. -/
def applyConvertSwallow (env : FetchEnv) (s : RunState) (path : String) : RunState :=
  let r := maybe_convert_webp_to_jpg (env.webpConvertOk path) s.fs path
  { s with fs := r.1 }

/-- Run the conversion inside the callers that record a conversion
failure in the error list (source lines 391-398 and 630-635). -/
def applyConvertRecord (env : FetchEnv) (s : RunState) (path url : String) : RunState :=
  let r := maybe_convert_webp_to_jpg (env.webpConvertOk path) s.fs path
  match r.2 with
  | .ok _ => { s with fs := r.1 }
  | .error m => { s with fs := r.1, errors := s.errors ++ [url ++ " (" ++ m ++ ")"] }

/-! ### `BingImageScraper.download_images` (source lines 307-420) -/

/-- One Bing candidate: the full-resolution URL and the original name
derived from it by `collect_image_metadata`. -/
structure BingItem where
  url : String
  name : String
deriving DecidableEq

/-- The sanitized original name (source line 364). -/
def bingOriginalName (it : BingItem) : String :=
  if it.name = "" then "" else sanitize_filename it.name

/-- The file name synthesized for one Bing item (source lines 365-376). -/
def bingFilename (keep : Bool) (it : BingItem) (index : Nat) (ct : String) : String :=
  let originalName := bingOriginalName it
  let suffix := best_extension originalName it.url ct
  if keep ∧ originalName ≠ "" then
    (if pySuffix originalName = "" then originalName ++ suffix else originalName)
  else "bing_" ++ pad4 index ++ suffix

/-- The target path chosen after the collision loop (source lines
378-383). -/
def bingTargetName (keep : Bool) (s : RunState) (index : Nat) (it : BingItem) (ct : String) :
    String :=
  freshName s.fs (bingFilename keep it index ct)

/-- Processing of one Bing item (source lines 340-418): ledger skip,
download, write, optional conversion (failure recorded, non-fatal),
compression (no effect on names), ledger append. -/
def bingProcessItem (env : FetchEnv) (keep conv : Bool) (s : RunState) (index : Nat)
    (it : BingItem) : RunState :=
  if it.url ∈ s.seen then { s with skipped := s.skipped + 1 }
  else
    match env.fetch it.url with
    | .error e =>
      { s with errors := s.errors ++ [it.url ++ " (" ++ e ++ ")"],
               skipped := s.skipped + 1 }
    | .ok ct =>
      let target := bingTargetName keep s index it ct
      let s1 : RunState := { s with fs := s.fs ++ [target], saved := s.saved + 1 }
      let s2 := if conv then applyConvertRecord env s1 target it.url else s1
      { s2 with ledger := s2.ledger ++ [it.url], seen := s2.seen ++ [it.url] }

/-- The download loop with its stop-event check at the top of each
iteration (source lines 334-338); the externally owned event is a
constant of the run. -/
def bingLoop (env : FetchEnv) (keep conv stopped : Bool) :
    Nat → List BingItem → RunState → RunState
  | _, [], s => s
  | index, it :: rest, s =>
    if stopped then s
    else bingLoop env keep conv stopped (index + 1) rest (bingProcessItem env keep conv s index it)

/-- Model of `BingImageScraper.download_images`. -/
def download_images (env : FetchEnv) (keep conv stopped : Bool)
    (fs ledger : List String) (items : List BingItem) : RunState :=
  bingLoop env keep conv stopped 1 items (initRunState fs ledger)

/-! ### `save_found_image` in `scrape_with_google` (source lines 542-650) -/

/-- Model of the closure `save_found_image`: the data-URI branch decodes
inline (note: it records only `url[:50] + "..."` in the ledger, and
writes its target without a collision loop); a missing `base64,`
separator or a payload `base64.b64decode` rejects raises into the
`except` of source lines 589-592, which only counts a skip — no write,
no error entry, no ledger append.  The network branch mirrors the Bing
path with a `google_` name prefix. -/
def save_found_image (env : FetchEnv) (keep conv : Bool) (s : RunState)
    (url name : String) (index : Nat) : RunState :=
  if url ∈ s.seen then { s with skipped := s.skipped + 1 }
  else if startsWithS url "data:image" then
    match breakOnS url "base64," with
    | none => { s with skipped := s.skipped + 1 }
    | some p =>
      if b64decodable p.2 = false then { s with skipped := s.skipped + 1 }
      else
      let header := p.1
      let ext := if containsS header "image/png" then ".png"
        else if containsS header "image/gif" then ".gif"
        else if containsS header "image/webp" then ".webp"
        else ".jpg"
      let finalName := if endsWithS name ext then name else pyStem name ++ ext
      let fs1 := if finalName ∈ s.fs then s.fs else s.fs ++ [finalName]
      let s1 : RunState := { s with fs := fs1, saved := s.saved + 1 }
      let s2 := if conv ∧ ext = ".webp" then applyConvertSwallow env s1 finalName else s1
      { s2 with ledger := s2.ledger ++ [takeChars url 50 ++ "..."],
                seen := s2.seen ++ [url] }
  else
    match env.fetch url with
    | .error e =>
      { s with errors := s.errors ++ [url ++ " (" ++ e ++ ")"],
               skipped := s.skipped + 1 }
    | .ok ct =>
      let originalName := if name = "" then "" else sanitize_filename name
      let suffix := best_extension originalName url ct
      let filename := if keep ∧ originalName ≠ "" then
          (if pySuffix originalName = "" then originalName ++ suffix else originalName)
        else "google_" ++ pad4 index ++ suffix
      let target := freshName s.fs filename
      let s1 : RunState := { s with fs := s.fs ++ [target], saved := s.saved + 1 }
      let s2 := if conv then applyConvertRecord env s1 target url else s1
      { s2 with ledger := s2.ledger ++ [url], seen := s2.seen ++ [url] }

/-- A sequence of accepted Google candidates handed to
`save_found_image` in order, indexed by `len(collected)` at call time. -/
def googleRunAux (env : FetchEnv) (keep conv : Bool) :
    Nat → List (String × String) → RunState → RunState
  | _, [], s => s
  | index, (url, name) :: rest, s =>
    googleRunAux env keep conv (index + 1) rest (save_found_image env keep conv s url name index)

/-- One Google run over the candidates accepted by the card loop,
starting from a directory with files `fs` and ledger `ledger`. -/
def googleRun (env : FetchEnv) (keep conv : Bool) (fs ledger : List String)
    (cands : List (String × String)) : RunState :=
  googleRunAux env keep conv 1 cands (initRunState fs ledger)

/-! ### The Google scroll-and-collect loop (source lines 678-906)

The loop's card processing drives the browser; it is abstracted as an
arbitrary state transformer `body`, while the loop structure itself —
the `while len(collected) < limit and misses < max_missed` condition and
the stop-event check at the top of each iteration — is taken from the
source. -/

structure GoogleLoopState where
  collected : Nat
  misses : Nat
  saved : Nat
  skipped : Nat
  ledger : List String
deriving DecidableEq

/-- Model of the Google while-loop skeleton. -/
def google_scrape_loop (body : GoogleLoopState → GoogleLoopState) (stopped : Bool)
    (limit maxMissed : Nat) : Nat → GoogleLoopState → GoogleLoopState
  | 0, s => s
  | fuel + 1, s =>
    if s.collected < limit ∧ s.misses < maxMissed then
      if stopped then s
      else google_scrape_loop body stopped limit maxMissed fuel (body s)
    else s

/-! ### `GenericPageScraper.scrape` (source lines 1106-1392) -/

/-- What the browser yields for one visited page: the harvested image
sources (after the `src`/`data-src`/`srcset` fallback chain) and the
anchor `href`s found on the page; `none` models a page that fails to
load (the `except` at source lines 1248-1250). -/
structure Page where
  imgs : List String
  links : List String

/-- The denylist keywords of source line 1242. -/
def denyKeywords : List String :=
  ["login", "signup", "signin", "register", "help", "about", "policy"]

/-- Model of `any(x in lower for x in [...])` over the lowercased href. -/
def denylisted (href : String) : Bool :=
  denyKeywords.any (fun k => containsS (lowerS href) k)

/-- The anchor filter of source lines 1231-1245: non-empty href, exact
host match against the seed, not denylisted, not an already-visited
page. -/
def linkFilter (host : String) (visited : List String) (href : String) : Bool :=
  decide (href ≠ "" ∧ urlsplitNetloc href = host ∧ denylisted href = false ∧ href ∉ visited)

/-- Seed normalization (source lines 1126-1127). -/
def normalizeSeed (url : String) : String :=
  if startsWithS url "http://" || startsWithS url "https://" then url
  else "https://" ++ url

structure CrawlState where
  queue : List (String × Nat)
  visited : List String
  images : List (String × String)
  enqueued : List (String × Nat)
  crawlErrors : List String
deriving DecidableEq

/-- Insertion into the `all_images` set (pairs of source and referring
page). -/
def addUniquePair (acc : List (String × String)) (p : String × String) :
    List (String × String) :=
  if p ∈ acc then acc else acc ++ [p]

/-- The crawl loop of source lines 1167-1250: pop, dedup against visited
pages, harvest images, and — only when `depth < maxDepth` — enqueue the
filtered same-host anchors at `depth + 1`.  `enqueued` logs every entry
ever appended to the queue.  The loop is fueled; the claims about it are
stated for arbitrary fuel. -/
def crawlLoop (env : String → Option Page) (stopped : Bool) (host : String)
    (maxDepth : Nat) : Nat → CrawlState → CrawlState
  | 0, s => s
  | fuel + 1, s =>
    match s.queue with
    | [] => s
    | (cur, depth) :: rest =>
      if stopped then s
      else if cur ∈ s.visited then
        crawlLoop env stopped host maxDepth fuel { s with queue := rest }
      else
        let s1 : CrawlState := { s with queue := rest, visited := s.visited ++ [cur] }
        match env cur with
        | none =>
          crawlLoop env stopped host maxDepth fuel
            { s1 with crawlErrors := s1.crawlErrors ++ ["Crawl error " ++ cur] }
        | some page =>
          let newImgs := (page.imgs.filter
              (fun src => startsWithS src "http" || startsWithS src "data:image")).map
            (fun src => (src, cur))
          let s2 : CrawlState := { s1 with images := newImgs.foldl addUniquePair s1.images }
          if depth < maxDepth then
            let entries := (page.links.filter (linkFilter host s2.visited)).map
              (fun l => (l, depth + 1))
            crawlLoop env stopped host maxDepth fuel
              { s2 with queue := s2.queue ++ entries, enqueued := s2.enqueued ++ entries }
          else crawlLoop env stopped host maxDepth fuel s2

/-- The crawl phase of `GenericPageScraper.scrape`: normalize the seed,
compute the base domain once, run the loop from the singleton queue. -/
def generic_crawl (env : String → Option Page) (stopped : Bool) (seedUrl : String)
    (maxDepth fuel : Nat) : CrawlState :=
  let url := normalizeSeed seedUrl
  crawlLoop env stopped (urlsplitNetloc url) maxDepth fuel
    { queue := [(url, 0)], visited := [], images := [], enqueued := [], crawlErrors := [] }

/-- String order used by `sorted(..., key=lambda x: x[0])`: code-point
lexicographic comparison. -/
def charListLe : List Char → List Char → Bool
  | [], _ => true
  | _ :: _, [] => false
  | a :: as, b :: bs => if a = b then charListLe as bs else decide (a.val < b.val)

/-- Insertion sort by URL (the download order of the crawl results). -/
def insertByUrl (p : String × String) : List (String × String) → List (String × String)
  | [] => [p]
  | q :: qs => if charListLe p.1.data q.1.data then p :: q :: qs else q :: insertByUrl p qs

/-- Model of `sorted(list(all_images), key=lambda x: x[0])`. -/
def sortByUrl : List (String × String) → List (String × String)
  | [] => []
  | p :: ps => insertByUrl p (sortByUrl ps)

/-- Download of one crawl image (source lines 1277-1390).  The data-URI
branch here does run the collision loop and records the truncated URL;
a missing `base64,` separator or a payload `base64.b64decode` rejects
raises into the `except` of source lines 1326-1329, which records a
`Data URI error` and counts a skip — no write, no ledger append.  The
network branch derives the original name from the URL path and swallows
conversion failures. -/
def genericDownloadStep (env : FetchEnv) (keep conv : Bool) (s : RunState)
    (index : Nat) (imageUrl : String) : RunState :=
  if imageUrl ∈ s.seen then { s with skipped := s.skipped + 1 }
  else if startsWithS imageUrl "data:image" then
    match breakOnS imageUrl "base64," with
    | none => { s with errors := s.errors ++ ["Data URI error"], skipped := s.skipped + 1 }
    | some p =>
      if b64decodable p.2 = false then
        { s with errors := s.errors ++ ["Data URI error"], skipped := s.skipped + 1 }
      else
      let header := p.1
      let ext1 := if containsS header "image/png" then ".png" else ".jpg"
      let ext2 := if containsS header "image/gif" then ".gif" else ext1
      let ext := if containsS header "image/webp" then ".webp" else ext2
      let filename := "custom_" ++ pad4 index ++ ext
      let target := freshName s.fs filename
      let s1 : RunState := { s with fs := s.fs ++ [target], saved := s.saved + 1 }
      let s2 := if conv ∧ ext = ".webp" then applyConvertSwallow env s1 target else s1
      { s2 with ledger := s2.ledger ++ [takeChars imageUrl 50 ++ "..."],
                seen := s2.seen ++ [imageUrl] }
  else
    match env.fetch imageUrl with
    | .error e =>
      { s with errors := s.errors ++ [imageUrl ++ ": " ++ e],
               skipped := s.skipped + 1 }
    | .ok ct =>
      let originalName := sanitize_filename (basenameOf (urlsplitPath imageUrl))
      let suffix := best_extension originalName imageUrl ct
      let filename := if keep ∧ 1 < originalName.length then
          (if pySuffix originalName = "" then originalName ++ suffix else originalName)
        else "custom_" ++ pad4 index ++ suffix
      let target := freshName s.fs filename
      let s1 : RunState := { s with fs := s.fs ++ [target], saved := s.saved + 1 }
      let s2 := if conv then applyConvertSwallow env s1 target else s1
      { s2 with ledger := s2.ledger ++ [imageUrl], seen := s2.seen ++ [imageUrl] }

/-- The crawl download loop with its limit check (source lines
1273-1275). -/
def genericDownloadLoop (env : FetchEnv) (keep conv : Bool) (limit : Nat) :
    Nat → List (String × String) → RunState → RunState
  | _, [], s => s
  | index, (u, _ref) :: rest, s =>
    if 0 < limit ∧ limit ≤ s.saved then s
    else genericDownloadLoop env keep conv limit (index + 1) rest
      (genericDownloadStep env keep conv s index u)

/-- Model of `GenericPageScraper.scrape`: crawl, then download the
pooled, URL-sorted images; the crawl errors seed the error list. -/
def generic_scrape (env : String → Option Page) (fenv : FetchEnv)
    (stopped keep conv : Bool) (limit : Nat) (fs ledger : List String)
    (seedUrl : String) (maxDepth fuel : Nat) : RunState :=
  let c := generic_crawl env stopped seedUrl maxDepth fuel
  genericDownloadLoop fenv keep conv limit 1 (sortByUrl c.images)
    { fs := fs, ledger := ledger, seen := ledger, saved := 0, skipped := 0,
      errors := c.crawlErrors }

/-! ### The orchestrators (GUI `_run_scraper`, lines 698-764 of
`image_scraper_gui.py`, and CLI `main`, lines 1027-1094)

A source run is an oracle `f engine` returning either its
`ScrapeResult` or the text of the exception it raised. -/

structure ScrapeResult where
  engine : String
  requested : Nat
  saved : Nat
  skipped : Nat
  errors : List String
  destination : String
deriving DecidableEq

/-- Model of the GUI worker `_run_scraper`: on any per-engine exception
the error is surfaced as `"{engine.title()} run failed: {error}"` and the
loop breaks, keeping the results gathered so far. -/
def run_scraper (f : String → Except String ScrapeResult) (stopped : Bool) :
    List String → List ScrapeResult × List String
  | [] => ([], [])
  | e :: engines =>
    if stopped then ([], [])
    else
      match f e with
      | .ok r =>
        let rest := run_scraper f stopped engines
        (r :: rest.1, rest.2)
      | .error m => ([], [e.capitalize ++ " run failed: " ++ m])

/-- Model of the CLI `main` loop: on any per-engine exception the
process returns exit code 1 at once (no summary of prior results). -/
def cli_main (f : String → Except String ScrapeResult) :
    List String → Nat × List ScrapeResult
  | [] => (0, [])
  | e :: engines =>
    match f e with
    | .ok r =>
      let rest := cli_main f engines
      (rest.1, r :: rest.2)
    | .error _ => (1, [])

/-! ### The Google dimension filter (source lines 815-827) -/

/-- Model of the dims read: the `except` path and a falsy component both
yield 0 (`width = int(dims[0] or 0)`). -/
def naturalDims (reading : Option (Int × Int)) : Int × Int := reading.getD (0, 0)

/-- The first rejection test, `(min_w and width < min_w) or (min_h and
height < min_h)` (source line 824); integer truthiness is `≠ 0`. -/
def minViolation (minW minH w h : Int) : Bool :=
  (decide (minW ≠ 0) && decide (w < minW)) || (decide (minH ≠ 0) && decide (h < minH))

/-- The second rejection test, `(max_w and width and width > max_w) or
(max_h and height and height > max_h)` (source line 826). -/
def maxViolation (maxW maxH w h : Int) : Bool :=
  (decide (maxW ≠ 0) && decide (w ≠ 0) && decide (maxW < w)) ||
  (decide (maxH ≠ 0) && decide (h ≠ 0) && decide (maxH < h))

/-! ### Concrete scenario data used by closed theorems -/

/-- An environment in which every network fetch fails and no conversion
succeeds (the data-URI branch needs neither). -/
def offlineEnv : FetchEnv :=
  { fetch := fun _ => .error "network disabled", webpConvertOk := fun _ => false }

/-- An environment in which every fetch succeeds with a JPEG content
type. -/
def jpegEnv : FetchEnv :=
  { fetch := fun _ => .ok "image/jpeg", webpConvertOk := fun _ => true }

/-- An environment in which every fetch reports a WebP and every
conversion fails. -/
def webpFailEnv : FetchEnv :=
  { fetch := fun _ => .ok "image/webp", webpConvertOk := fun _ => false }

/-- A base64 data URI with a validly padded payload (12 characters, a
whole number of quads, so `base64.b64decode` accepts it); the URI is 34
characters long, so its ledger record is the whole URI plus `"..."`. -/
def cexDataUrl : String := "data:image/png;base64,iVBORw0KGgo="

/-- An engine oracle for the orchestrator theorems: the Bing source
raises a discovery failure, the Google source succeeds. -/
def cexOkResult : ScrapeResult :=
  { engine := "google", requested := 1, saved := 1, skipped := 0, errors := [],
    destination := "downloads" }

/-- See `cexOkResult`. -/
def cexEngineRunner : String → Except String ScrapeResult :=
  fun e => if e = "bing" then .error "DiscoveryFailure: connection refused"
    else .ok cexOkResult

/-- First run of the data-URI rerun scenario: one data-URI candidate
saved into an empty directory. -/
def cexRerunFirst : RunState :=
  googleRun offlineEnv false false [] [] [(cexDataUrl, "data_image_abcdef.jpg")]

/-- Second run of the same candidate against the directory and ledger
left by the first run. -/
def cexRerunSecond : RunState :=
  googleRun offlineEnv false false cexRerunFirst.fs cexRerunFirst.ledger
    [(cexDataUrl, "data_image_abcdef.jpg")]

/-- A run of the Google data-URI branch against a directory that already
contains the file the branch synthesizes. -/
def cexOverwriteRun : RunState :=
  googleRun offlineEnv false false ["data_image_abcdef.png"] []
    [(cexDataUrl, "data_image_abcdef.jpg")]

/-- A page environment for the crawl witness: every page links to one
same-host anchor. -/
def pageEnvA : String → Option Page :=
  fun _ => some { imgs := [], links := ["https://ex.com/a"] }

/-! ## Theorems -/

/-- The selection loop returns the first allow-listed (normalized)
candidate, and `.jpg` when there is none. -/
lemma pickExt_eq_getD : ∀ l : List String, pickExt l = (specFirstAllowed l).getD ".jpg" := by
  intro l
  induction l with
  | nil => rfl
  | cons e es ih =>
    by_cases h : (if e = ".jpe" then ".jpg" else e) ∈ ALLOWED_IMAGE_EXTENSIONS
    · simp [pickExt, specFirstAllowed, h]
    · simp [pickExt, specFirstAllowed, h, ih]

/-- Scanning a concatenation scans the pieces in order. -/
lemma specFirstAllowed_append : ∀ l1 l2 : List String,
    specFirstAllowed (l1 ++ l2) =
      match specFirstAllowed l1 with
      | some e => some e
      | none => specFirstAllowed l2 := by
  intro l1 l2
  induction l1 with
  | nil => rfl
  | cons e es ih =>
    by_cases h : (if e = ".jpe" then ".jpg" else e) ∈ ALLOWED_IMAGE_EXTENSIONS
    · simp [specFirstAllowed, h]
    · simp [specFirstAllowed, h, ih]

/-- Every value the selection loop can return is allow-listed. -/
lemma pickExt_mem : ∀ l : List String, pickExt l ∈ ALLOWED_IMAGE_EXTENSIONS := by
  intro l
  induction l with
  | nil => simp [pickExt, ALLOWED_IMAGE_EXTENSIONS]
  | cons e es ih =>
    by_cases h : (if e = ".jpe" then ".jpg" else e) ∈ ALLOWED_IMAGE_EXTENSIONS
    · simp [pickExt, h]
    · simp [pickExt, h, ih]

/-- C3: extension inference precedence.  `best_extension` equals the
specification-side function that takes the first allow-listed hit in the
order original-filename extension, URL path extension (query ignored,
case-insensitive), content-type sniff, with default `.jpg` and `.jpe`
normalized to `.jpg`; and the spec's worked example resolves to `.png`
(the URL hint precedes the content type). -/
theorem claim3_extension_precedence :
    (∀ name url ct, best_extension name url ct = best_extension_spec name url ct)
    ∧ best_extension "photo" "https://example.com/pic.PNG?x=1" "image/jpeg" = ".png" := by
  constructor
  · intro name url ct
    unfold best_extension best_extension_spec
    rw [List.append_assoc, pickExt_eq_getD, specFirstAllowed_append, specFirstAllowed_append]
    cases specFirstAllowed (extCandidate name) <;>
      cases specFirstAllowed (extCandidate url) <;>
        cases specFirstAllowed (ctCandidate ct) <;> rfl
  · decide

/-- C9: `best_extension` is total and closed over the allow-list: for
every combination of inputs it returns a member of the fixed extension
set, and never `.jpe` or the empty string. -/
theorem claim9_best_extension_total :
    ∀ name url ct, best_extension name url ct ∈ ALLOWED_IMAGE_EXTENSIONS
      ∧ best_extension name url ct ≠ ".jpe"
      ∧ best_extension name url ct ≠ "" := by
  intro name url ct
  have h := pickExt_mem (extCandidate name ++ extCandidate url ++ ctCandidate ct)
  have hall : ∀ e ∈ ALLOWED_IMAGE_EXTENSIONS, e ≠ ".jpe" ∧ e ≠ "" := by decide
  exact ⟨h, (hall _ h).1, (hall _ h).2⟩

/-- C4 counterexample: the claim's worked example is wrong on the code.
An image of 4000x1000 under maxWidth 2000 and maxHeight 800 resizes to
2000x500 — after the width step the height (500) is already within
bound, so the height step does not run and the final size is not
1280x800. -/
theorem claim4_counterexample :
    compress_image 4000 1000 2000 800 = (2000, 500)
    ∧ compress_image 4000 1000 2000 800 ≠ (1280, 800) := by
  exact ⟨by decide, by decide⟩

/-- C4 (amended): the resize is width-first and the result respects both
bounds whenever both are positive; the claim's example input 4000x1000
yields 2000x500, and an input that does exercise both steps, 4000x2500,
yields 1280x800. -/
theorem claim4_amended_resize_bounds :
    (∀ w h maxW maxH : Nat, 0 < maxW → 0 < maxH →
      (compress_image w h maxW maxH).1 ≤ maxW ∧ (compress_image w h maxW maxH).2 ≤ maxH)
    ∧ compress_image 4000 1000 2000 800 = (2000, 500)
    ∧ compress_image 4000 2500 2000 800 = (1280, 800) := by
  refine ⟨?_, by decide, by decide⟩
  intro w h maxW maxH hW hH
  unfold compress_image resizeWidthStep resizeHeightStep
  by_cases h1 : 0 < maxW ∧ maxW < w
  · rw [if_pos h1]
    by_cases h2 : 0 < maxH ∧ maxH < h * maxW / w
    · rw [if_pos h2]
      have hd : 0 < h * maxW / w := lt_trans hH h2.2
      constructor
      · calc maxW * maxH / (h * maxW / w)
            ≤ maxW * (h * maxW / w) / (h * maxW / w) :=
              Nat.div_le_div_right (Nat.mul_le_mul_left _ (le_of_lt h2.2))
          _ = maxW := Nat.mul_div_cancel _ hd
      · exact le_refl _
    · rw [if_neg h2]
      refine ⟨le_refl _, ?_⟩
      rcases Nat.lt_or_ge maxH (h * maxW / w) with hlt | hge
      · exact absurd ⟨hH, hlt⟩ h2
      · exact hge
  · rw [if_neg h1]
    have hwle : w ≤ maxW := by
      rcases Nat.lt_or_ge maxW w with hlt | hge
      · exact absurd ⟨hW, hlt⟩ h1
      · exact hge
    by_cases h2 : 0 < maxH ∧ maxH < h
    · rw [if_pos h2]
      have hh : 0 < h := lt_trans hH h2.2
      constructor
      · calc w * maxH / h ≤ w * h / h :=
              Nat.div_le_div_right (Nat.mul_le_mul_left _ (le_of_lt h2.2))
          _ = w := Nat.mul_div_cancel _ hh
          _ ≤ maxW := hwle
      · exact le_refl _
    · rw [if_neg h2]
      refine ⟨hwle, ?_⟩
      rcases Nat.lt_or_ge maxH h with hlt | hge
      · exact absurd ⟨hH, hlt⟩ h2
      · exact hge

/-- C4 witness: the amended bound theorem applied at the claim's
concrete bounds. -/
theorem claim4_amended_witness :
    (compress_image 4000 1000 2000 800).1 ≤ 2000
    ∧ (compress_image 4000 1000 2000 800).2 ≤ 800 :=
  claim4_amended_resize_bounds.1 4000 1000 2000 800 (by decide) (by decide)

/-- C10: the dimension filter of the browser-automation scraper.  An
unreadable dims probe is treated as 0x0; a 0x0 candidate is rejected by
the minimum test whenever a positive minimum width or height is
configured; and a dimension reading 0 disables its own comparison in the
maximum test (the zero-width and zero-height cases reduce to the other
axis alone). -/
theorem claim10_dimension_filter :
    ∀ minW minH maxW maxH h : Int,
      naturalDims none = (0, 0)
      ∧ ((0 < minW ∨ 0 < minH) → minViolation minW minH 0 0 = true)
      ∧ maxViolation maxW maxH 0 h =
          (decide (maxH ≠ 0) && decide (h ≠ 0) && decide (maxH < h))
      ∧ maxViolation maxW maxH h 0 =
          (decide (maxW ≠ 0) && decide (h ≠ 0) && decide (maxW < h)) := by
  intro minW minH maxW maxH h
  refine ⟨rfl, ?_, ?_, ?_⟩
  · intro hpos
    simp only [minViolation, Bool.or_eq_true, Bool.and_eq_true, decide_eq_true_eq]
    omega
  · simp [maxViolation]
  · simp [maxViolation]

/-- C10 witness: the theorem at `min = (200, 0)` rejecting an unreadable
candidate. -/
theorem claim10_witness : minViolation 200 0 0 0 = true :=
  (claim10_dimension_filter 200 0 0 0 0).2.1 (Or.inl (by decide))

/-- C2 counterexample: with a source oracle on which `bing` raises a
discovery failure and `google` succeeds, the GUI orchestrator surfaces
the error but produces no result for `google` (the loop breaks), and the
CLI orchestrator returns exit code 1 — the remaining source does not
run, although running it would succeed. -/
theorem claim2_counterexample :
    run_scraper cexEngineRunner false ["bing", "google"] =
      ([], ["Bing run failed: DiscoveryFailure: connection refused"])
    ∧ cexEngineRunner "google" = .ok cexOkResult
    ∧ cli_main cexEngineRunner ["bing", "google"] = (1, []) := by
  refine ⟨by decide, rfl, by decide⟩

/-- C2 (amended): every per-source exception — setup and discovery
failures alike — is caught and surfaced as a per-source error, but it
aborts the remaining sources: the GUI worker breaks out of its loop
keeping the results gathered so far, and the CLI returns exit code 1.  A
successful source contributes its result and the loop continues. -/
theorem claim2_amended_abort_on_failure :
    ∀ (f : String → Except String ScrapeResult) (e m : String) (r : ScrapeResult)
      (engines : List String),
      (f e = .error m →
        run_scraper f false (e :: engines) = ([], [e.capitalize ++ " run failed: " ++ m]))
      ∧ (f e = .ok r →
        run_scraper f false (e :: engines) =
          (r :: (run_scraper f false engines).1, (run_scraper f false engines).2))
      ∧ (f e = .error m → cli_main f (e :: engines) = (1, [])) := by
  intro f e m r engines
  refine ⟨fun h => ?_, fun h => ?_, fun h => ?_⟩ <;> simp [run_scraper, cli_main, h]

/-- C2 witness: the amended theorem at the concrete failing oracle. -/
theorem claim2_amended_witness :
    run_scraper cexEngineRunner false ["bing"] =
      ([], ["Bing run failed: DiscoveryFailure: connection refused"])
    ∧ cli_main cexEngineRunner ["bing"] = (1, []) := by
  have h := claim2_amended_abort_on_failure cexEngineRunner "bing"
    "DiscoveryFailure: connection refused" cexOkResult []
  exact ⟨(h.1 rfl).trans (by decide), h.2.2 rfl⟩

/-- A crawl with the stop flag already set returns its state unchanged:
the loop breaks before the first page is processed. -/
lemma crawlLoop_stopped (env : String → Option Page) (host : String) (maxDepth : Nat) :
    ∀ fuel (s : CrawlState), crawlLoop env true host maxDepth fuel s = s := by
  intro fuel s
  cases fuel with
  | zero => rfl
  | succ n =>
    unfold crawlLoop
    rcases hq : s.queue with _ | ⟨⟨cur, depth⟩, rest⟩ <;> simp

/-- A crawl whose queue is empty returns its state unchanged. -/
lemma crawlLoop_nil_queue (env : String → Option Page) (stopped : Bool) (host : String)
    (maxDepth : Nat) :
    ∀ fuel (s : CrawlState), s.queue = [] →
      crawlLoop env stopped host maxDepth fuel s = s := by
  intro fuel s h
  cases fuel with
  | zero => rfl
  | succ n =>
    unfold crawlLoop
    rw [h]

/-- C6: cancellation before any work.  With the stop flag set before the
first candidate is processed, the Bing download loop, the Google
scroll-and-collect loop (for every loop body) and the generic crawl all
leave their state untouched: the run returns saved 0 and skipped 0 and
the ledger is exactly the one that was loaded. -/
theorem claim6_cancellation_noop :
    (∀ env keep conv idx items s, bingLoop env keep conv true idx items s = s)
    ∧ (∀ env keep conv fs ledger items,
        download_images env keep conv true fs ledger items = initRunState fs ledger)
    ∧ (∀ body limit maxMissed fuel s, google_scrape_loop body true limit maxMissed fuel s = s)
    ∧ (∀ env fenv keep conv limit fs ledger seedUrl maxDepth fuel,
        generic_scrape env fenv true keep conv limit fs ledger seedUrl maxDepth fuel =
          initRunState fs ledger) := by
  have hbing : ∀ env keep conv idx items s, bingLoop env keep conv true idx items s = s := by
    intro env keep conv idx items s
    cases items <;> simp [bingLoop]
  refine ⟨hbing, fun env keep conv fs ledger items => hbing _ _ _ _ _ _, ?_, ?_⟩
  · intro body limit maxMissed fuel s
    cases fuel with
    | zero => rfl
    | succ n =>
      show (if s.collected < limit ∧ s.misses < maxMissed then
          if true = true then s else google_scrape_loop body true limit maxMissed n (body s)
        else s) = s
      split <;> simp
  · intro env fenv keep conv limit fs ledger seedUrl maxDepth fuel
    unfold generic_scrape generic_crawl
    rw [crawlLoop_stopped]
    rfl

/-- Unfolding of one productive crawl step from a singleton queue with
`maxDepth = 0`: the seed is visited and, the depth test failing, nothing
is enqueued; the loop then stops on the empty queue. -/
lemma crawl_depth_zero (env : String → Option Page) (seed : String) (fuel : Nat) :
    (generic_crawl env false seed 0 (fuel + 1)).visited = [normalizeSeed seed]
    ∧ (generic_crawl env false seed 0 (fuel + 1)).enqueued = [] := by
  unfold generic_crawl
  rw [crawlLoop]
  cases henv : env (normalizeSeed seed) with
  | none =>
    simp only [henv, List.not_mem_nil, if_false, Bool.false_eq_true]
    rw [crawlLoop_nil_queue _ _ _ _ _ _ rfl]
    exact ⟨rfl, rfl⟩
  | some page =>
    simp only [henv, List.not_mem_nil, if_false, Bool.false_eq_true,
      Nat.lt_irrefl]
    rw [crawlLoop_nil_queue _ _ _ _ _ _ rfl]
    exact ⟨rfl, rfl⟩

/-- Every entry the crawl loop ever appends to its queue log either was
in the log already or satisfies the anchor contract: it sits at depth at
least 1 and at most `maxDepth`, its host equals the seed host, and it is
not denylisted. -/
lemma crawl_enqueued_invariant (env : String → Option Page) (host : String) (maxDepth : Nat) :
    ∀ fuel (s : CrawlState) e,
      e ∈ (crawlLoop env false host maxDepth fuel s).enqueued →
      e ∈ s.enqueued ∨
        (1 ≤ e.2 ∧ e.2 ≤ maxDepth ∧ urlsplitNetloc e.1 = host ∧ denylisted e.1 = false) := by
  intro fuel
  induction fuel with
  | zero => intro s e he; exact Or.inl he
  | succ n ih =>
    intro s e he
    rw [crawlLoop] at he
    rcases hq : s.queue with _ | ⟨⟨cur, depth⟩, rest⟩
    · rw [hq] at he; exact Or.inl he
    · rw [hq] at he
      simp only [Bool.false_eq_true, if_false] at he
      by_cases hv : cur ∈ s.visited
      · rw [if_pos hv] at he
        exact ih ⟨rest, s.visited, s.images, s.enqueued, s.crawlErrors⟩ e he
      · rw [if_neg hv] at he
        rcases henv : env cur with _ | page
        · rw [henv] at he
          exact ih ⟨rest, s.visited ++ [cur], s.images, s.enqueued,
            s.crawlErrors ++ ["Crawl error " ++ cur]⟩ e he
        · rw [henv] at he
          have he' : e ∈ (if depth < maxDepth then
              crawlLoop env false host maxDepth n
                ⟨rest ++ (page.links.filter (linkFilter host (s.visited ++ [cur]))).map
                    (fun l => (l, depth + 1)),
                  s.visited ++ [cur],
                  List.foldl addUniquePair s.images ((page.imgs.filter
                    (fun src => startsWithS src "http" || startsWithS src "data:image")).map
                      (fun src => (src, cur))),
                  s.enqueued ++ (page.links.filter (linkFilter host (s.visited ++ [cur]))).map
                    (fun l => (l, depth + 1)),
                  s.crawlErrors⟩
            else
              crawlLoop env false host maxDepth n
                ⟨rest, s.visited ++ [cur],
                  List.foldl addUniquePair s.images ((page.imgs.filter
                    (fun src => startsWithS src "http" || startsWithS src "data:image")).map
                      (fun src => (src, cur))),
                  s.enqueued, s.crawlErrors⟩).enqueued := he
          by_cases hd : depth < maxDepth
          · rw [if_pos hd] at he'
            rcases ih _ e he' with hin | hp
            · rcases List.mem_append.mp hin with hold | hnew
              · exact Or.inl hold
              · right
                rcases List.mem_map.mp hnew with ⟨l, hl, rfl⟩
                rcases List.mem_filter.mp hl with ⟨_, hfilt⟩
                have hprops := of_decide_eq_true hfilt
                exact ⟨Nat.le_add_left 1 depth, Nat.succ_le_of_lt hd,
                  hprops.2.1, hprops.2.2.1⟩
            · exact Or.inr hp
          · rw [if_neg hd] at he'
            exact ih ⟨rest, s.visited ++ [cur],
              List.foldl addUniquePair s.images ((page.imgs.filter
                (fun src => startsWithS src "http" || startsWithS src "data:image")).map
                  (fun src => (src, cur))),
              s.enqueued, s.crawlErrors⟩ e he'

/-- C7: crawl depth bound.  A crawl with `maxDepth = 0` visits exactly
one page (the normalized seed) and enqueues no links; and for every
depth bound, every link ever enqueued sits at depth between 1 and
`maxDepth`, matches the seed's host exactly, and avoids the denylist
keywords. -/
theorem claim7_crawl_depth_bound :
    (∀ env seed fuel,
      (generic_crawl env false seed 0 (fuel + 1)).visited = [normalizeSeed seed]
      ∧ (generic_crawl env false seed 0 (fuel + 1)).enqueued = [])
    ∧ (∀ env seed maxDepth fuel e,
      e ∈ (generic_crawl env false seed maxDepth fuel).enqueued →
      1 ≤ e.2 ∧ e.2 ≤ maxDepth
        ∧ urlsplitNetloc e.1 = urlsplitNetloc (normalizeSeed seed)
        ∧ denylisted e.1 = false) := by
  constructor
  · intro env seed fuel
    exact crawl_depth_zero env seed fuel
  · intro env seed maxDepth fuel e he
    rcases crawl_enqueued_invariant env (urlsplitNetloc (normalizeSeed seed)) maxDepth fuel
        _ e he with hin | hp
    · simp at hin
    · exact hp

/-- C7 witness: on an environment whose pages link to a same-host
anchor, the crawl from seed `ex.com` with depth bound 1 enqueues that
anchor, and the theorem certifies its depth and filters. -/
theorem claim7_witness :
    1 ≤ (("https://ex.com/a", 1) : String × Nat).2
    ∧ (("https://ex.com/a", 1) : String × Nat).2 ≤ 1
    ∧ urlsplitNetloc "https://ex.com/a" = urlsplitNetloc (normalizeSeed "ex.com")
    ∧ denylisted "https://ex.com/a" = false :=
  claim7_crawl_depth_bound.2 pageEnvA "ex.com" 1 2 ("https://ex.com/a", 1) (by decide)

/-- String length distributes over append. -/
lemma strlen_append (a b : String) : (a ++ b).length = a.length + b.length := by
  show (a.data ++ b.data).length = a.data.length + b.data.length
  exact List.length_append a.data b.data

/-- The `splitext` model splits a name into a root and an extension that
concatenate back to the name. -/
lemma splitextList_join (cs : List Char) :
    (splitextList cs).1 ++ (splitextList cs).2 = cs := by
  unfold splitextList
  split
  · simp
  · dsimp only
    split
    · exact List.take_append_drop _ _
    · simp

/-- The `splitext` model splits a name into two parts whose lengths sum back. -/
lemma stem_suffix_length (s : String) :
    (pyStem s).length + (pySuffix s).length = s.length := by
  show (splitextList s.data).1.length + (splitextList s.data).2.length = s.data.length
  rw [← List.length_append, splitextList_join]

/-- Each collision-loop candidate is strictly longer than the name it is
built from (the `_` alone guarantees growth). -/
lemma lt_nextCand_length (t : String) (i : Nat) : t.length < (nextCand t i).length := by
  have h := stem_suffix_length t
  have h1 : ("_" : String).length = 1 := rfl
  unfold nextCand
  rw [strlen_append, strlen_append, strlen_append]
  omega

/-- The lengths of the candidate sequence grow strictly. -/
lemma candAt_length_lt : ∀ (j : Nat) (t : String) (i : Nat),
    (candAt t i j).length < (candAt t i (j + 1)).length := by
  intro j
  induction j with
  | zero => intro t i; exact lt_nextCand_length t i
  | succ j ihj => intro t i; exact ihj (nextCand t i) (i + 1)

/-- Pigeonhole: among the first `ex.length + 1` candidates at least one
name is not taken, because the candidates are pairwise distinct. -/
lemma exists_free_cand (ex : List String) (t : String) (i : Nat) :
    ∃ j, j < ex.length + 1 ∧ candAt t i j ∉ ex := by
  by_contra hall
  push_neg at hall
  have hmono : StrictMono (fun j => (candAt t i j).length) :=
    strictMono_nat_of_lt_succ (fun j => candAt_length_lt j t i)
  have hinj : Function.Injective (candAt t i) := by
    intro a b hab
    exact hmono.injective (by simp only [hab])
  have hsub : (Finset.range (ex.length + 1)).image (candAt t i) ⊆ ex.toFinset := by
    intro x hx
    rcases Finset.mem_image.mp hx with ⟨j, hj, rfl⟩
    exact List.mem_toFinset.mpr (hall j (Finset.mem_range.mp hj))
  have hcard := Finset.card_le_card hsub
  rw [Finset.card_image_of_injective _ hinj, Finset.card_range] at hcard
  have htf := List.toFinset_card_le ex
  omega

/-- If some candidate within the fuel budget is free, the collision loop
returns a name that is not taken. -/
lemma freshAux_free (ex : List String) :
    ∀ (fuel : Nat) (t : String) (i : Nat),
      (∃ j, j < fuel ∧ candAt t i j ∉ ex) → freshAux ex fuel t i ∉ ex := by
  intro fuel
  induction fuel with
  | zero =>
    rintro t i ⟨j, hj, -⟩
    exact absurd hj (Nat.not_lt_zero j)
  | succ n ihn =>
    rintro t i ⟨j, hj, hfree⟩
    have hstep : freshAux ex (n + 1) t i =
        if t ∈ ex then freshAux ex n (nextCand t i) (i + 1) else t := rfl
    by_cases ht : t ∈ ex
    · rw [hstep, if_pos ht]
      apply ihn
      cases j with
      | zero => exact absurd ht hfree
      | succ j => exact ⟨j, Nat.lt_of_succ_lt_succ hj, hfree⟩
    · rw [hstep, if_neg ht]
      exact ht

/-- C5 (amended): the collision loop of the Downloader's network paths
(and of the crawl data-URI path) never returns the name of an existing
file, returns the base name unchanged when it is free, and suffixes the
second file `_1` when the base name is taken.  (The claim's statement
that the data-URI decode of the browser-automation scraper also runs
this loop is refuted separately: that branch writes its target directly
and can overwrite.) -/
theorem claim5_amended_collision_policy :
    ∀ (ex : List String) (filename : String),
      freshName ex filename ∉ ex
      ∧ (filename ∉ ex → freshName ex filename = filename)
      ∧ (filename ∈ ex → nextCand filename 1 ∉ ex →
          freshName ex filename = nextCand filename 1) := by
  intro ex filename
  refine ⟨freshAux_free ex _ _ _ (exists_free_cand ex filename 1),
    fun h => ?_, fun h1 h2 => ?_⟩
  · have hstep : freshName ex filename =
        if filename ∈ ex then freshAux ex ex.length (nextCand filename 1) 2 else filename := rfl
    rw [hstep, if_neg h]
  · rcases ex with _ | ⟨a, l⟩
    · exact absurd h1 (List.not_mem_nil _)
    · have e1 : freshName (a :: l) filename =
          if filename ∈ a :: l then
            freshAux (a :: l) (l.length + 1) (nextCand filename 1) 2
          else filename := rfl
      have e2 : freshAux (a :: l) (l.length + 1) (nextCand filename 1) 2 =
          if nextCand filename 1 ∈ a :: l then
            freshAux (a :: l) l.length (nextCand (nextCand filename 1) 2) 3
          else nextCand filename 1 := rfl
      rw [e1, if_pos h1, e2, if_neg h2]

/-- C5 witness: with `img.jpg` already present, the loop saves the
second candidate as `img_1.jpg` and never overwrites. -/
theorem claim5_amended_witness :
    freshName ["img.jpg"] "img.jpg" ∉ ["img.jpg"]
    ∧ freshName ["img.jpg"] "img.jpg" = nextCand "img.jpg" 1 := by
  have h := claim5_amended_collision_policy ["img.jpg"] "img.jpg"
  exact ⟨h.1, h.2.2 (by decide) (by decide)⟩

/-- C5 counterexample: the data-URI decode of the browser-automation
scraper does not run the collision loop.  Against a directory already
holding `data_image_abcdef.png`, saving a PNG data URI whose synthesized
name is the same writes onto that very file: the run counts one save but
the directory still holds exactly the one file — an overwrite, with no
`_1`-suffixed second file. -/
theorem claim5_counterexample :
    cexOverwriteRun.saved = 1 ∧ cexOverwriteRun.fs = ["data_image_abcdef.png"] := by
  exact ⟨by decide, by decide⟩

/-- C8: conversion-failure atomicity.  (1) Whenever the WebP-to-JPEG
conversion fails (raises), the filesystem is unchanged — in particular
the downloaded original is still at its path.  (2) The source file
disappears only when the re-encode succeeded.  (3) In the Bing download
loop, a conversion failure on a downloaded `.webp` file leaves the file
in place, appends the failure to the caller's error list, still counts
the download as saved, and still records the URL in the ledger — the
run continues. -/
theorem claim8_conversion_failure_atomic :
    (∀ (codecOk : Bool) (fs : List String) (path msg : String),
      (maybe_convert_webp_to_jpg codecOk fs path).2 = .error msg →
      (maybe_convert_webp_to_jpg codecOk fs path).1 = fs)
    ∧ (∀ (codecOk : Bool) (fs : List String) (path : String), path ∈ fs →
      path ∉ (maybe_convert_webp_to_jpg codecOk fs path).1 →
      ∃ t, (maybe_convert_webp_to_jpg codecOk fs path).2 = .ok t)
    ∧ (∀ (env : FetchEnv) (keep : Bool) (s : RunState) (idx : Nat) (it : BingItem)
        (ct : String),
      env.fetch it.url = .ok ct →
      it.url ∉ s.seen →
      lowerS (pySuffix (bingTargetName keep s idx it ct)) = ".webp" →
      env.webpConvertOk (bingTargetName keep s idx it ct) = false →
      (bingProcessItem env keep true s idx it).saved = s.saved + 1
      ∧ bingTargetName keep s idx it ct ∈ (bingProcessItem env keep true s idx it).fs
      ∧ (bingProcessItem env keep true s idx it).errors = s.errors ++
          [it.url ++ " (" ++
            ("Failed to convert " ++ bingTargetName keep s idx it ct ++ " from .webp to .jpg")
            ++ ")"]
      ∧ (bingProcessItem env keep true s idx it).ledger = s.ledger ++ [it.url]) := by
  refine ⟨?_, ?_, ?_⟩
  · intro codecOk fs path msg h
    by_cases hs : lowerS (pySuffix path) ≠ ".webp"
    · simp only [maybe_convert_webp_to_jpg, if_pos hs] at h
      cases h
    · cases codecOk
      · simp only [maybe_convert_webp_to_jpg, if_neg hs, Bool.false_eq_true, if_false]
      · simp only [maybe_convert_webp_to_jpg, if_neg hs, if_true] at h
        cases h
  · intro codecOk fs path hin hout
    by_cases hs : lowerS (pySuffix path) ≠ ".webp"
    · exact absurd (by simpa [maybe_convert_webp_to_jpg, hs] using hin) hout
    · cases codecOk
      · exact absurd (by simpa [maybe_convert_webp_to_jpg, hs] using hin) hout
      · refine ⟨convTargetName fs path, ?_⟩
        simp [maybe_convert_webp_to_jpg, hs]
  · intro env keep s idx it ct hf hseen hsuf hconv
    have hred : bingProcessItem env keep true s idx it =
        { s with
          fs := s.fs ++ [bingTargetName keep s idx it ct],
          ledger := s.ledger ++ [it.url],
          seen := s.seen ++ [it.url],
          saved := s.saved + 1,
          errors := s.errors ++
            [it.url ++ " (" ++
              ("Failed to convert " ++ bingTargetName keep s idx it ct ++ " from .webp to .jpg")
              ++ ")"] } := by
      unfold bingProcessItem
      rw [if_neg hseen, hf]
      unfold applyConvertRecord maybe_convert_webp_to_jpg
      dsimp only
      rw [if_neg (not_not_intro hsuf), hconv]
      rfl
    rw [hred]
    refine ⟨rfl, ?_, rfl, rfl⟩
    exact List.mem_append_right _ (List.mem_singleton_self _)

/-- C8 witness: the atomicity theorem at a concrete WebP download whose
conversion fails. -/
theorem claim8_witness :
    (bingProcessItem webpFailEnv false true (initRunState [] []) 1
        ⟨"http://e.com/pic.webp", "pic.webp"⟩).saved = 1
    ∧ bingTargetName false (initRunState [] []) 1
        ⟨"http://e.com/pic.webp", "pic.webp"⟩ "image/webp"
      ∈ (bingProcessItem webpFailEnv false true (initRunState [] []) 1
        ⟨"http://e.com/pic.webp", "pic.webp"⟩).fs := by
  have h := claim8_conversion_failure_atomic.2.2 webpFailEnv false (initRunState [] []) 1
    ⟨"http://e.com/pic.webp", "pic.webp"⟩ "image/webp" rfl (by decide) (by decide) rfl
  exact ⟨h.1, h.2.1⟩

/-- The recorded conversion step never touches the counters, the ledger
or the in-memory seen set. -/
lemma applyConvertRecord_fields (env : FetchEnv) (s : RunState) (p u : String) :
    (applyConvertRecord env s p u).seen = s.seen
    ∧ (applyConvertRecord env s p u).ledger = s.ledger
    ∧ (applyConvertRecord env s p u).saved = s.saved
    ∧ (applyConvertRecord env s p u).skipped = s.skipped := by
  unfold applyConvertRecord
  cases h : (maybe_convert_webp_to_jpg (env.webpConvertOk p) s.fs p).2 <;> simp [h]

/-- Processing one fresh, successfully fetched item appends its URL to
the seen set and the ledger and counts exactly one save. -/
lemma bingProcess_fresh (env : FetchEnv) (keep conv : Bool) (s : RunState) (idx : Nat)
    (it : BingItem) (ct : String) (hf : env.fetch it.url = .ok ct) (hs : it.url ∉ s.seen) :
    (bingProcessItem env keep conv s idx it).seen = s.seen ++ [it.url]
    ∧ (bingProcessItem env keep conv s idx it).ledger = s.ledger ++ [it.url]
    ∧ (bingProcessItem env keep conv s idx it).saved = s.saved + 1
    ∧ (bingProcessItem env keep conv s idx it).skipped = s.skipped := by
  unfold bingProcessItem
  rw [if_neg hs, hf]
  cases conv with
  | false => exact ⟨rfl, rfl, rfl, rfl⟩
  | true =>
    have hb := applyConvertRecord_fields env
      { s with fs := s.fs ++ [bingTargetName keep s idx it ct], saved := s.saved + 1 }
      (bingTargetName keep s idx it ct) it.url
    refine ⟨?_, ?_, ?_, ?_⟩ <;>
      simp [hb.1, hb.2.1, hb.2.2.1, hb.2.2.2]

/-- A run over items that are all fresh and all fetchable records every
URL in the ledger and the seen set, saves them all and skips none. -/
lemma bingLoop_fresh (env : FetchEnv) (keep conv : Bool) :
    ∀ (items : List BingItem) (idx : Nat) (s : RunState),
      (∀ it ∈ items, ∃ ct, env.fetch it.url = Except.ok ct) →
      (items.map BingItem.url).Nodup →
      (∀ it ∈ items, it.url ∉ s.seen) →
      (bingLoop env keep conv false idx items s).seen = s.seen ++ items.map BingItem.url
      ∧ (bingLoop env keep conv false idx items s).ledger = s.ledger ++ items.map BingItem.url
      ∧ (bingLoop env keep conv false idx items s).saved = s.saved + items.length
      ∧ (bingLoop env keep conv false idx items s).skipped = s.skipped := by
  intro items
  induction items with
  | nil =>
    intro idx s _ _ _
    simp [bingLoop]
  | cons it rest ih =>
    intro idx s hok hnd hfresh
    rcases hok it (List.mem_cons_self it rest) with ⟨ct, hct⟩
    have hs : it.url ∉ s.seen := hfresh it (List.mem_cons_self it rest)
    have hp := bingProcess_fresh env keep conv s idx it ct hct hs
    have hnd' : (rest.map BingItem.url).Nodup := (List.nodup_cons.mp hnd).2
    have hhead : it.url ∉ rest.map BingItem.url := (List.nodup_cons.mp hnd).1
    have hfresh' : ∀ j ∈ rest, j.url ∉ (bingProcessItem env keep conv s idx it).seen := by
      intro j hj
      rw [hp.1]
      intro hmem
      rcases List.mem_append.mp hmem with h1 | h2
      · exact hfresh j (List.mem_cons_of_mem _ hj) h1
      · have heq : j.url = it.url := List.mem_singleton.mp h2
        exact hhead (heq ▸ List.mem_map_of_mem BingItem.url hj)
    have hloop := ih (idx + 1) (bingProcessItem env keep conv s idx it)
      (fun j hj => hok j (List.mem_cons_of_mem _ hj)) hnd' hfresh'
    have hstep : bingLoop env keep conv false idx (it :: rest) s =
        bingLoop env keep conv false (idx + 1) rest (bingProcessItem env keep conv s idx it) := by
      simp [bingLoop]
    rw [hstep]
    refine ⟨?_, ?_, ?_, ?_⟩
    · rw [hloop.1, hp.1]
      simp
    · rw [hloop.2.1, hp.2.1]
      simp
    · rw [hloop.2.2.1, hp.2.2.1]
      simp [List.length_cons]
      omega
    · rw [hloop.2.2.2, hp.2.2.2]

/-- A run over items whose URLs are all in the seen set skips them all,
saves nothing and leaves the ledger alone. -/
lemma bingLoop_all_seen (env : FetchEnv) (keep conv : Bool) :
    ∀ (items : List BingItem) (idx : Nat) (s : RunState),
      (∀ it ∈ items, it.url ∈ s.seen) →
      (bingLoop env keep conv false idx items s).saved = s.saved
      ∧ (bingLoop env keep conv false idx items s).skipped = s.skipped + items.length
      ∧ (bingLoop env keep conv false idx items s).ledger = s.ledger := by
  intro items
  induction items with
  | nil =>
    intro idx s _
    simp [bingLoop]
  | cons it rest ih =>
    intro idx s hseen
    have hproc : bingProcessItem env keep conv s idx it = { s with skipped := s.skipped + 1 } := by
      unfold bingProcessItem
      rw [if_pos (hseen it (List.mem_cons_self it rest))]
    have hstep : bingLoop env keep conv false idx (it :: rest) s =
        bingLoop env keep conv false (idx + 1) rest (bingProcessItem env keep conv s idx it) := by
      simp [bingLoop]
    rw [hstep, hproc]
    have hloop := ih (idx + 1) { s with skipped := s.skipped + 1 }
      (fun j hj => hseen j (List.mem_cons_of_mem _ hj))
    refine ⟨hloop.1, ?_, hloop.2.2⟩
    rw [hloop.2.1]
    simp [List.length_cons]
    omega

/-- C1 (amended): rerun idempotence holds for candidates whose URL the
ledger records verbatim — the network path.  For every environment in
which each candidate fetches successfully, a run over pairwise-distinct
URLs not yet in the ledger saves them all; rerunning the same candidates
against the directory and ledger left behind saves 0, skips exactly the
previous saved count, and leaves the ledger unchanged.  (The data-URI
path of the browser-automation scraper violates this — see the
counterexample — because it records only a 50-character prefix of the
URL.) -/
theorem claim1_amended_rerun_idempotent :
    ∀ (env : FetchEnv) (keep conv : Bool) (fs ledger : List String) (items : List BingItem),
      (∀ it ∈ items, ∃ ct, env.fetch it.url = Except.ok ct) →
      (items.map BingItem.url).Nodup →
      (∀ it ∈ items, it.url ∉ ledger) →
      (download_images env keep conv false fs ledger items).saved = items.length
      ∧ (download_images env keep conv false
          (download_images env keep conv false fs ledger items).fs
          (download_images env keep conv false fs ledger items).ledger items).saved = 0
      ∧ (download_images env keep conv false
          (download_images env keep conv false fs ledger items).fs
          (download_images env keep conv false fs ledger items).ledger items).skipped =
        (download_images env keep conv false fs ledger items).saved
      ∧ (download_images env keep conv false
          (download_images env keep conv false fs ledger items).fs
          (download_images env keep conv false fs ledger items).ledger items).ledger =
        (download_images env keep conv false fs ledger items).ledger := by
  intro env keep conv fs ledger items hok hnd hfresh
  have h1 := bingLoop_fresh env keep conv items 1 (initRunState fs ledger) hok hnd
    (fun it hit => hfresh it hit)
  have hsaved1 : (download_images env keep conv false fs ledger items).saved = items.length := by
    simpa [initRunState] using h1.2.2.1
  have hall : ∀ it ∈ items,
      it.url ∈ (download_images env keep conv false fs ledger items).ledger := by
    intro it hit
    have hled : (download_images env keep conv false fs ledger items).ledger =
        (initRunState fs ledger).ledger ++ items.map BingItem.url := h1.2.1
    rw [hled]
    exact List.mem_append_right _ (List.mem_map_of_mem _ hit)
  have h2 := bingLoop_all_seen env keep conv items 1
    (initRunState (download_images env keep conv false fs ledger items).fs
      (download_images env keep conv false fs ledger items).ledger) hall
  refine ⟨hsaved1, by simpa [initRunState] using h2.1, ?_, by simpa [initRunState] using h2.2.2⟩
  rw [hsaved1]
  simpa [initRunState] using h2.2.1

/-- C1 witness: the amended idempotence theorem at one concrete network
candidate. -/
theorem claim1_amended_witness :
    (download_images jpegEnv false false false [] [] [⟨"http://e.com/a.jpg", "a.jpg"⟩]).saved = 1
    ∧ (download_images jpegEnv false false false
        (download_images jpegEnv false false false [] [] [⟨"http://e.com/a.jpg", "a.jpg"⟩]).fs
        (download_images jpegEnv false false false [] [] [⟨"http://e.com/a.jpg", "a.jpg"⟩]).ledger
        [⟨"http://e.com/a.jpg", "a.jpg"⟩]).saved = 0
    ∧ (download_images jpegEnv false false false
        (download_images jpegEnv false false false [] [] [⟨"http://e.com/a.jpg", "a.jpg"⟩]).fs
        (download_images jpegEnv false false false [] [] [⟨"http://e.com/a.jpg", "a.jpg"⟩]).ledger
        [⟨"http://e.com/a.jpg", "a.jpg"⟩]).skipped =
      (download_images jpegEnv false false false [] [] [⟨"http://e.com/a.jpg", "a.jpg"⟩]).saved := by
  have h := claim1_amended_rerun_idempotent jpegEnv false false [] []
    [⟨"http://e.com/a.jpg", "a.jpg"⟩]
    (fun _ _ => ⟨"image/jpeg", rfl⟩) (by decide) (by decide)
  exact ⟨h.1, h.2.1, h.2.2.1⟩

/-- C1 counterexample: a base64 data URI violates rerun idempotence.
The ledger records only the 50-character prefix plus `"..."`, so the
second run against the unchanged candidate and the same directory does
not skip the URL: it saves again (`saved = 1`, `skipped = 0`), where the
claim demands `saved = 0` and `skipped = 1`. -/
theorem claim1_counterexample :
    cexRerunFirst.saved = 1
    ∧ cexRerunFirst.ledger = [cexDataUrl ++ "..."]
    ∧ cexRerunSecond.saved = 1
    ∧ cexRerunSecond.skipped = 0 := by
  exact ⟨by decide, by decide, by decide, by decide⟩

end ImageScraper
